import Mathlib

/-!
Verification of the skillex archive-creation and path-validation core.

The development shallowly embeds two components of the repository:

* `PathValidator.validate_path` (src/skillex/infrastructure/validator.py):
  paths are lists of components, the filesystem visible to `Path.resolve`
  is an association list from canonical absolute paths to entries
  (directory, regular file, or symbolic link with a target), and
  `resolveComps` mirrors non-strict `Path.resolve`: symbolic links are
  followed on components that exist, `..` is collapsed against the
  already-canonical prefix, and components that do not exist are appended
  lexically.  A fuel bound models the symlink-loop limit; exhausting it
  corresponds to the resolution error caught by the validator.

* `ZipArchiveBuilder.create_archive` (src/skillex/infrastructure/zipbuilder.py):
  the source tree is a directory tree value, `collectNode` mirrors the
  `os.walk(..., followlinks=False)` loop with its `is_symlink` skip and
  `relative_to(parent)` arcname computation, and `create_archive` is a
  big-step function over a world state (content at the destination path,
  number of scratch files in the destination's parent, existence of that
  parent) together with fault-injection flags for each failure point the
  code handles (mkdir, temp-file creation, archive write, integrity
  check, rename).
-/

namespace Skillex

/-- Kind of a filesystem entry as seen by path resolution:
a directory, a regular file, or a symbolic link with an absolute target. -/
inductive SymEntry : Type where
  | dir : SymEntry
  | file : SymEntry
  | symlink : List String → SymEntry
deriving DecidableEq, Repr

/-- The filesystem view used by `Path.resolve`: a finite association from
canonical absolute paths (component lists) to entries. -/
abbrev SymFS := List (List String × SymEntry)

/-- Look up the entry stored at a canonical path. -/
def lookupFS (fs : SymFS) (p : List String) : Option SymEntry :=
  match fs with
  | [] => none
  | (q, e) :: rest => if q = p then some e else lookupFS rest p

/-- Fuel bound modelling the kernel/stdlib symlink-following limit inside
`Path.resolve`; exhausting it is the resolution failure (`OSError` /
`RuntimeError`) that `validate_path` converts to a generic security error. -/
def resolveFuel : Nat := 64

/-- The symlink target stored at an entry, if the entry is a symlink. -/
def symTarget : Option SymEntry → Option (List String)
  | some (SymEntry.symlink t) => some t
  | _ => none

/-- One-pass embedding of non-strict `Path.resolve` over the component list:
`cur` is the canonical prefix resolved so far, and the head component is
processed as CPython's `realpath` does — `.` and empty components are
dropped, `..` pops the canonical prefix, a component whose location holds a
symlink restarts resolution at the (absolute) target followed by the rest,
and any other component (directory, file, or nonexistent) is appended. -/
def resolveComps (fs : SymFS) : Nat → List String → List String → Option (List String)
  | _, cur, [] => some cur
  | 0, _, _ :: _ => none
  | Nat.succ fuel, cur, c :: rest =>
    if c = "." ∨ c = "" then resolveComps fs fuel cur rest
    else if c = ".." then resolveComps fs fuel cur.dropLast rest
    else
      match symTarget (lookupFS fs (cur ++ [c])) with
      | some t => resolveComps fs fuel [] (t ++ rest)
      | none => resolveComps fs fuel (cur ++ [c]) rest

/-- `path.expanduser().resolve()` as called by the validator and the
archive builder on absolute inputs. -/
def pyResolve (fs : SymFS) (p : List String) : Option (List String) :=
  resolveComps fs resolveFuel [] p

/-- Outcome of `PathValidator.validate_path`: the resolved path on success,
`PathTraversalError`, or the generic `SecurityError` raised when
resolution itself fails. -/
inductive VResult : Type where
  | ok : List String → VResult
  | traversal : VResult
  | securityError : VResult
deriving DecidableEq, Repr

/-- Embedding of `PathValidator.validate_path`: resolve both arguments to
canonical form (a failure of either raises `SecurityError`), then test
`resolved_path.is_relative_to(resolved_base)` — componentwise prefix,
with equality allowed — raising `PathTraversalError` when it fails and
returning the resolved candidate when it holds. -/
def validate_path (fs : SymFS) (path allowed_base : List String) : VResult :=
  match pyResolve fs path, pyResolve fs allowed_base with
  | some rp, some rb =>
    if rb.isPrefixOf rp then VResult.ok rp else VResult.traversal
  | _, _ => VResult.securityError

mutual
/-- A source directory tree with file contents: regular files (byte lists),
symbolic links (with their target), and directories listing named
children. -/
inductive FSNode : Type where
  | file : List Nat → FSNode
  | symlink : List String → FSNode
  | dir : Children → FSNode
deriving DecidableEq, Repr
inductive Children : Type where
  | nil : Children
  | cons : String → FSNode → Children → Children
deriving DecidableEq, Repr
end

mutual
/-- The `os.walk(source_dir, followlinks=False)` loop of `_write_archive`,
expressed on the tree: a regular file yields one entry at its relative
path, symbolic links are skipped entirely (file symlinks via the
`is_symlink` check, directory symlinks by not descending), and a
directory contributes its children's entries prefixed with its name. -/
def collectNode : FSNode → List (List String × List Nat)
  | FSNode.file c => [([], c)]
  | FSNode.symlink _ => []
  | FSNode.dir ch => collectChildren ch
def collectChildren : Children → List (List String × List Nat)
  | Children.nil => []
  | Children.cons n node rest =>
    (collectNode node).map (fun e => (n :: e.1, e.2)) ++ collectChildren rest
end

/-- Membership of a named child in a directory's child list. -/
inductive ChMem : String → FSNode → Children → Prop
  | head {n : String} {node : FSNode} (rest : Children) :
      ChMem n node (Children.cons n node rest)
  | tail {n : String} {node : FSNode} {m : String} {other : FSNode} {rest : Children} :
      ChMem n node rest → ChMem n node (Children.cons m other rest)

/-- The specification-side description of the files the walk should find:
`NReach node p c` holds when following only directory children along the
relative path `p` from `node` ends at a regular file with content `c`.
Symbolic links never occur along such a path. -/
inductive NReach : FSNode → List String → List Nat → Prop
  | file (c : List Nat) : NReach (FSNode.file c) [] c
  | step {ch : Children} {n : String} {node : FSNode} {p : List String} {c : List Nat} :
      ChMem n node ch → NReach node p c → NReach (FSNode.dir ch) (n :: p) c

/-- Prefix every entry name with one leading component. -/
def prefixEntries (n : String) (es : List (List String × List Nat)) :
    List (List String × List Nat) :=
  es.map (fun e => (n :: e.1, e.2))

/-- Archive entry names produced for a source at canonical path `sp`:
`arcname = file_path.relative_to(parent_dir)` in `_write_archive`, i.e.
the in-tree relative path prefixed with the source directory's base name
(when the source is not the filesystem root). -/
def archiveEntries (sp : List String) (node : FSNode) :
    List (List String × List Nat) :=
  match sp.getLast? with
  | some b => prefixEntries b (collectNode node)
  | none => collectNode node

/-- Fault-injection flags, one per failure point `create_archive` handles:
`mkdirFails` models `create_directory` raising, `tempFails` models
`NamedTemporaryFile` raising, `writeFails` an `OSError` inside
`_write_archive`, `badZip` the reopened scratch file being rejected as a
ZIP, `corruptEntry` `testzip()` reporting a corrupt member, and
`replaceFails` an error from the final rename. -/
structure Faults : Type where
  mkdirFails : Bool
  tempFails : Bool
  writeFails : Bool
  badZip : Bool
  corruptEntry : Bool
  replaceFails : Bool
deriving DecidableEq, Repr

/-- Observable filesystem state around one `create_archive` call: the
archive content at the destination path (if any file is there), the
number of scratch files in the destination's parent directory, and
whether that parent directory exists. -/
structure World : Type where
  dest : Option (List (List String × List Nat))
  scratch : Nat
  parentExists : Bool
deriving DecidableEq, Repr

/-- The exception kinds `create_archive` can let escape: the two packaging
kinds it raises itself, plus the filesystem-layer error from
`create_directory` and the resolution error from `Path.resolve`, both of
which occur outside its `try` block. -/
inductive AErr : Type where
  | creation : AErr
  | integrity : AErr
  | dirCreate : AErr
  | resolution : AErr
deriving DecidableEq, Repr

/-- Result of one `create_archive` call. -/
inductive AOutcome : Type where
  | ok : AOutcome
  | err : AErr → AOutcome
deriving DecidableEq, Repr

/-- The `try` block of `create_archive` (zipbuilder.py lines 93-127): create
the scratch file, write the archive, validate it, atomically rename it
onto the destination; on any failure the scratch file (if created) is
unlinked before the error propagates, and non-packaging exceptions are
wrapped as `ArchiveCreationError`. -/
def tryPhase (flt : Faults) (entries : List (List String × List Nat))
    (w1 : World) : AOutcome × World :=
  if flt.tempFails then
    (AOutcome.err AErr.creation, w1)
  else
    let w2 : World := { w1 with scratch := w1.scratch + 1 }
    if flt.writeFails then
      (AOutcome.err AErr.creation, { w2 with scratch := w2.scratch - 1 })
    else if flt.badZip then
      (AOutcome.err AErr.integrity, { w2 with scratch := w2.scratch - 1 })
    else if flt.corruptEntry then
      (AOutcome.err AErr.integrity, { w2 with scratch := w2.scratch - 1 })
    else if flt.replaceFails then
      (AOutcome.err AErr.creation, { w2 with scratch := w2.scratch - 1 })
    else
      (AOutcome.ok, { w2 with scratch := w2.scratch - 1, dest := some entries })

/-- Embedding of `ZipArchiveBuilder.create_archive`: resolve the source
(resolution errors escape unwrapped, being raised before the `try`
block), fail with `ArchiveCreationError` when the resolved source is
missing or not a directory, create the destination's parent directory if
absent (its errors also escape unwrapped, `create_directory` being
called before the `try` block), then run the write/validate/rename
phase. -/
def create_archive (fs : SymFS) (nodeAt : List String → Option FSNode)
    (src : List String) (flt : Faults) (w : World) : AOutcome × World :=
  match pyResolve fs src with
  | none => (AOutcome.err AErr.resolution, w)
  | some sp =>
    match nodeAt sp with
    | none => (AOutcome.err AErr.creation, w)
    | some (FSNode.file _) => (AOutcome.err AErr.creation, w)
    | some (FSNode.symlink _) => (AOutcome.err AErr.creation, w)
    | some (FSNode.dir ch) =>
      if w.parentExists then
        tryPhase flt (archiveEntries sp (FSNode.dir ch)) w
      else if flt.mkdirFails then
        (AOutcome.err AErr.dirCreate, w)
      else
        tryPhase flt (archiveEntries sp (FSNode.dir ch))
          { w with parentExists := true }

/-- Whether the optional entry is a symbolic link. -/
def isSymlinkEntry : Option SymEntry → Bool
  | some (SymEntry.symlink _) => true
  | _ => false

/-- True when walking the listed components from the canonical prefix `acc`
meets no dot/empty segment and no symbolic link, so resolution simply
appends each component. -/
def plainPrefixAux (fs : SymFS) : List String → List String → Bool
  | _, [] => true
  | acc, c :: rest =>
    !(c == "." || c == "" || c == "..") &&
      !(isSymlinkEntry (lookupFS fs (acc ++ [c]))) &&
      plainPrefixAux fs (acc ++ [c]) rest

/-- A raw absolute path whose walk from the root is plain. -/
def plainPrefix (fs : SymFS) (p : List String) : Bool :=
  plainPrefixAux fs [] p

theorem validate_path_eq_of_resolve (fs : SymFS) (p b rp rb : List String)
    (hp : pyResolve fs p = some rp) (hb : pyResolve fs b = some rb) :
    validate_path fs p b =
      (if rb.isPrefixOf rp then VResult.ok rp else VResult.traversal) := by
  unfold validate_path
  rw [hp, hb]

/-- C2: when canonicalization of both the candidate and the base succeeds,
`validate_path` returns the canonical candidate exactly when the canonical
base is equal to it or an ancestor of it (componentwise prefix), and
raises the traversal error otherwise.  Symlinks, `..` re-entry and
nonexistent components are all handled inside `pyResolve`, so the
equivalence covers them. -/
theorem validate_path_containment_iff (fs : SymFS) (p b rp rb : List String)
    (hp : pyResolve fs p = some rp) (hb : pyResolve fs b = some rb) :
    (validate_path fs p b = VResult.ok rp ↔ rb <+: rp) ∧
      (¬ rb <+: rp → validate_path fs p b = VResult.traversal) := by
  have heq := validate_path_eq_of_resolve fs p b rp rb hp hb
  by_cases hpre : rb <+: rp
  · have hb' : rb.isPrefixOf rp = true := List.isPrefixOf_iff_prefix.mpr hpre
    rw [heq, if_pos hb']
    exact ⟨⟨fun _ => hpre, fun _ => rfl⟩, fun h => absurd hpre h⟩
  · have hb' : ¬ rb.isPrefixOf rp = true := by
      intro h
      exact hpre (List.isPrefixOf_iff_prefix.mp h)
    rw [heq, if_neg hb']
    constructor
    · constructor
      · intro h
        cases h
      · intro h
        exact absurd h hpre
    · intro _
      rfl

/-- Witness for C2 at a concrete symlink-escape input: the filesystem has a
symlink `/base/s → /x/y`; the candidate `/base/s` canonicalizes to
`/x/y`, which is not under the canonical base `/base`, so `validate_path`
raises the traversal error. -/
theorem validate_path_containment_iff_witness :
    validate_path
        [(["base"], SymEntry.dir), (["base", "s"], SymEntry.symlink ["x", "y"])]
        ["base", "s"] ["base"] = VResult.traversal := by
  have h := validate_path_containment_iff
    [(["base"], SymEntry.dir), (["base", "s"], SymEntry.symlink ["x", "y"])]
    ["base", "s"] ["base"] ["x", "y"] ["base"] (by decide) (by decide)
  exact h.2 (by decide)

/-- C10: `validate_path` does not require the candidate to exist — if the
candidate's canonical form has no filesystem entry at all but is equal to
or below the canonical base, validation still succeeds and returns it. -/
theorem validate_path_ok_of_nonexistent (fs : SymFS) (p b rp rb : List String)
    (_hnone : lookupFS fs rp = none)
    (hp : pyResolve fs p = some rp) (hb : pyResolve fs b = some rb)
    (hpre : rb <+: rp) :
    validate_path fs p b = VResult.ok rp := by
  have heq := validate_path_eq_of_resolve fs p b rp rb hp hb
  rw [heq, if_pos (List.isPrefixOf_iff_prefix.mpr hpre)]

/-- Witness for C10: `/base/new/../sub` where only `/base` exists — the
nonexistent tail is collapsed lexically to `/base/sub`, which has no
entry in the filesystem yet is inside the base, so validation succeeds. -/
theorem validate_path_ok_of_nonexistent_witness :
    validate_path [(["base"], SymEntry.dir)]
        ["base", "new", "..", "sub"] ["base"] = VResult.ok ["base", "sub"] := by
  exact validate_path_ok_of_nonexistent [(["base"], SymEntry.dir)]
    ["base", "new", "..", "sub"] ["base"] ["base", "sub"] ["base"]
    (by decide) (by decide) (by decide) (by decide)

mutual
theorem mem_collectNode : ∀ (node : FSNode) (p : List String) (c : List Nat),
    (p, c) ∈ collectNode node ↔ NReach node p c
  | FSNode.file c0, p, c => by
    constructor
    · intro h
      simp only [collectNode, List.mem_singleton, Prod.mk.injEq] at h
      obtain ⟨rfl, rfl⟩ := h
      exact NReach.file _
    · intro h
      cases h
      simp [collectNode]
  | FSNode.symlink t, p, c => by
    constructor
    · intro h
      simp [collectNode] at h
    · intro h
      cases h
  | FSNode.dir ch, p, c => by
    rw [show collectNode (FSNode.dir ch) = collectChildren ch from rfl]
    rw [mem_collectChildren ch p c]
    constructor
    · rintro ⟨n, node, q, hmem, rfl, hr⟩
      exact NReach.step hmem hr
    · intro h
      cases h
      rename_i n node q hmem hr
      exact ⟨n, node, q, hmem, rfl, hr⟩
theorem mem_collectChildren : ∀ (ch : Children) (p : List String) (c : List Nat),
    (p, c) ∈ collectChildren ch ↔
      ∃ n node q, ChMem n node ch ∧ p = n :: q ∧ NReach node q c
  | Children.nil, p, c => by
    constructor
    · intro h
      simp [collectChildren] at h
    · rintro ⟨n, node, q, hmem, _, _⟩
      cases hmem
  | Children.cons m other rest, p, c => by
    constructor
    · intro h
      rw [show collectChildren (Children.cons m other rest) =
          (collectNode other).map (fun e => (m :: e.1, e.2)) ++
            collectChildren rest from rfl] at h
      rcases List.mem_append.mp h with h1 | h2
      · rcases List.mem_map.mp h1 with ⟨⟨p0, c0⟩, he, heq⟩
        have h3 : NReach other p0 c0 := (mem_collectNode other p0 c0).mp he
        cases heq
        exact ⟨m, other, p0, ChMem.head rest, rfl, h3⟩
      · rcases (mem_collectChildren rest p c).mp h2 with ⟨n, node, q, hmem, hp, hr⟩
        exact ⟨n, node, q, ChMem.tail hmem, hp, hr⟩
    · rintro ⟨n, node, q, hmem, rfl, hr⟩
      rw [show collectChildren (Children.cons m other rest) =
          (collectNode other).map (fun e => (m :: e.1, e.2)) ++
            collectChildren rest from rfl]
      apply List.mem_append.mpr
      cases hmem with
      | head _ =>
        left
        apply List.mem_map.mpr
        exact ⟨(q, c), (mem_collectNode other q c).mpr hr, rfl⟩
      | tail htail =>
        right
        exact (mem_collectChildren rest (n :: q) c).mpr ⟨n, node, q, htail, rfl, hr⟩
end

theorem tryPhase_scratch (flt : Faults) (entries : List (List String × List Nat))
    (w1 : World) : ((tryPhase flt entries w1).2).scratch = w1.scratch := by
  obtain ⟨d, s, pe⟩ := w1
  unfold tryPhase
  split
  · rfl
  · split
    · simp
    · split
      · simp
      · split
        · simp
        · split
          · simp
          · simp

theorem tryPhase_scratch_eq (flt : Faults) (entries : List (List String × List Nat))
    (w1 : World) (o : AOutcome) (w' : World)
    (h : tryPhase flt entries w1 = (o, w')) : w'.scratch = w1.scratch := by
  have h2 := tryPhase_scratch flt entries w1
  rw [h] at h2
  exact h2

theorem tryPhase_err_dest (flt : Faults) (entries : List (List String × List Nat))
    (w1 : World) (e : AErr) (w' : World)
    (h : tryPhase flt entries w1 = (AOutcome.err e, w')) : w'.dest = w1.dest := by
  unfold tryPhase at h
  split at h
  · cases h
    rfl
  · split at h
    · cases h
      rfl
    · split at h
      · cases h
        rfl
      · split at h
        · cases h
          rfl
        · split at h
          · cases h
            rfl
          · cases h

theorem tryPhase_ok_flags (flt : Faults) (entries : List (List String × List Nat))
    (w1 : World) (w' : World)
    (h : tryPhase flt entries w1 = (AOutcome.ok, w')) :
    flt.badZip = false ∧ flt.corruptEntry = false := by
  unfold tryPhase at h
  split at h
  · cases h
  · split at h
    · cases h
    · split at h
      · cases h
      · split at h
        · cases h
        · split at h
          · cases h
          · rename_i h1 h2 h3 h4 h5
            constructor
            · exact Bool.eq_false_iff.mpr (by simpa using h3)
            · exact Bool.eq_false_iff.mpr (by simpa using h4)

theorem tryPhase_ok_state (flt : Faults) (entries : List (List String × List Nat))
    (w1 : World)
    (h1 : flt.tempFails = false) (h2 : flt.writeFails = false)
    (h3 : flt.badZip = false) (h4 : flt.corruptEntry = false)
    (h5 : flt.replaceFails = false) :
    tryPhase flt entries w1 = (AOutcome.ok, { w1 with dest := some entries }) := by
  obtain ⟨d, s, pe⟩ := w1
  simp [tryPhase, h1, h2, h3, h4, h5]

/-- C1: if `create_archive` raises, the destination path holds exactly what
it held before the call; and when the destination does change (success),
the published archive is the one that passed the integrity check — the
bad-zip and corrupt-entry fault flags were necessarily clear. -/
theorem create_archive_raises_dest_unchanged (fs : SymFS)
    (nodeAt : List String → Option FSNode) (src : List String)
    (flt : Faults) (w : World) :
    (∀ e w', create_archive fs nodeAt src flt w = (AOutcome.err e, w') →
      w'.dest = w.dest) ∧
    (∀ w', create_archive fs nodeAt src flt w = (AOutcome.ok, w') →
      flt.badZip = false ∧ flt.corruptEntry = false) := by
  constructor
  · intro e w' h
    unfold create_archive at h
    split at h
    · cases h
      rfl
    · split at h
      · cases h
        rfl
      · cases h
        rfl
      · cases h
        rfl
      · split at h
        · have h2 := tryPhase_err_dest _ _ _ _ _ h
          exact h2
        · split at h
          · cases h
            rfl
          · have h2 := tryPhase_err_dest _ _ _ _ _ h
            exact h2
  · intro w' h
    unfold create_archive at h
    split at h
    · cases h
    · split at h
      · cases h
      · cases h
      · cases h
      · split at h
        · have h2 := tryPhase_ok_flags _ _ _ _ h
          exact h2
        · split at h
          · cases h
          · have h2 := tryPhase_ok_flags _ _ _ _ h
            exact h2

/-- Witness for C1: a call whose archive-write phase fails leaves the (empty)
destination untouched. -/
theorem create_archive_raises_dest_unchanged_witness :
    ∀ w', create_archive [(["s"], SymEntry.dir)]
        (fun p => if p = ["s"] then some (FSNode.dir Children.nil) else none)
        ["s"] ⟨false, false, true, false, false, false⟩ ⟨none, 0, true⟩ =
          (AOutcome.err AErr.creation, w') →
      w'.dest = none := by
  intro w' h
  exact (create_archive_raises_dest_unchanged [(["s"], SymEntry.dir)]
    (fun p => if p = ["s"] then some (FSNode.dir Children.nil) else none)
    ["s"] ⟨false, false, true, false, false, false⟩ ⟨none, 0, true⟩).1
    AErr.creation w' h

/-- C3: every exit path of `create_archive` — success, any injected
failure, or the early validation errors — leaves the number of scratch
files in the destination's parent exactly as it was before the call. -/
theorem create_archive_no_scratch_left (fs : SymFS)
    (nodeAt : List String → Option FSNode) (src : List String)
    (flt : Faults) (w : World) (o : AOutcome) (w' : World)
    (h : create_archive fs nodeAt src flt w = (o, w')) :
    w'.scratch = w.scratch := by
  unfold create_archive at h
  split at h
  · cases h
    rfl
  · split at h
    · cases h
      rfl
    · cases h
      rfl
    · cases h
      rfl
    · split at h
      · have h2 := tryPhase_scratch_eq _ _ _ _ _ h
        exact h2
      · split at h
        · cases h
          rfl
        · have h2 := tryPhase_scratch_eq _ _ _ _ _ h
          exact h2

/-- Witness for C3: a successful call (scratch created, renamed away) ends
with as many scratch files as it started with. -/
theorem create_archive_no_scratch_left_witness :
    ((create_archive [(["s"], SymEntry.dir)]
        (fun p => if p = ["s"] then some (FSNode.dir Children.nil) else none)
        ["s"] ⟨false, false, false, false, false, false⟩ ⟨none, 3, true⟩).2).scratch = 3 := by
  exact create_archive_no_scratch_left [(["s"], SymEntry.dir)]
    (fun p => if p = ["s"] then some (FSNode.dir Children.nil) else none)
    ["s"] ⟨false, false, false, false, false, false⟩ ⟨none, 3, true⟩
    _ _ rfl

/-- C8: when the resolved source is missing or not a directory,
`create_archive` raises `ArchiveCreationError` and the world is returned
exactly as it was: no scratch file is created and the destination's
parent directory is not created by that call. -/
theorem create_archive_missing_source (fs : SymFS)
    (nodeAt : List String → Option FSNode) (src : List String)
    (flt : Faults) (w : World) (sp : List String)
    (hres : pyResolve fs src = some sp)
    (hnode : nodeAt sp = none ∨ (∃ c, nodeAt sp = some (FSNode.file c)) ∨
      (∃ t, nodeAt sp = some (FSNode.symlink t))) :
    create_archive fs nodeAt src flt w = (AOutcome.err AErr.creation, w) := by
  rcases hnode with h | ⟨c, h⟩ | ⟨t, h⟩ <;> simp [create_archive, hres, h]

theorem archiveEntries_concat (q : List String) (b : String) (node : FSNode) :
    archiveEntries (q ++ [b]) node = prefixEntries b (collectNode node) := by
  unfold archiveEntries
  rw [List.getLast?_concat]

theorem mem_prefixEntries (b : String) (es : List (List String × List Nat))
    (p : List String) (c : List Nat) :
    (b :: p, c) ∈ prefixEntries b es ↔ (p, c) ∈ es := by
  unfold prefixEntries
  constructor
  · intro h
    rcases List.mem_map.mp h with ⟨⟨p0, c0⟩, he, heq⟩
    simp only [Prod.mk.injEq, List.cons.injEq] at heq
    obtain ⟨⟨_, rfl⟩, rfl⟩ := heq
    exact he
  · intro h
    exact List.mem_map.mpr ⟨(p, c), h, rfl⟩

theorem mem_prefixEntries_shape (b : String) (es : List (List String × List Nat))
    (p : List String) (c : List Nat) (h : (p, c) ∈ prefixEntries b es) :
    ∃ rest, p = b :: rest ∧ (rest, c) ∈ es := by
  unfold prefixEntries at h
  rcases List.mem_map.mp h with ⟨⟨p0, c0⟩, he, heq⟩
  cases heq
  exact ⟨p0, rfl, he⟩

theorem NReach_dir_ne_nil (ch : Children) (p : List String) (c : List Nat)
    (h : NReach (FSNode.dir ch) p c) : p ≠ [] := by
  cases h
  exact List.cons_ne_nil _ _

theorem tryPhase_ok_dest (flt : Faults) (entries : List (List String × List Nat))
    (w1 : World) (w' : World)
    (h : tryPhase flt entries w1 = (AOutcome.ok, w')) : w'.dest = some entries := by
  unfold tryPhase at h
  split at h
  · cases h
  · split at h
    · cases h
    · split at h
      · cases h
      · split at h
        · cases h
        · split at h
          · cases h
          · cases h
            rfl

theorem create_archive_success (fs : SymFS)
    (nodeAt : List String → Option FSNode) (src : List String)
    (flt : Faults) (w : World) (sp : List String) (ch : Children)
    (hres : pyResolve fs src = some sp)
    (hnode : nodeAt sp = some (FSNode.dir ch))
    (h1 : flt.tempFails = false) (h2 : flt.writeFails = false)
    (h3 : flt.badZip = false) (h4 : flt.corruptEntry = false)
    (h5 : flt.replaceFails = false)
    (hmk : w.parentExists = true ∨ flt.mkdirFails = false) :
    create_archive fs nodeAt src flt w =
      (AOutcome.ok,
        { w with parentExists := true,
                 dest := some (archiveEntries sp (FSNode.dir ch)) }) := by
  have hstep : ∀ w1 : World, tryPhase flt (archiveEntries sp (FSNode.dir ch)) w1 =
      (AOutcome.ok, { w1 with dest := some (archiveEntries sp (FSNode.dir ch)) }) :=
    fun w1 => tryPhase_ok_state flt _ w1 h1 h2 h3 h4 h5
  obtain ⟨d, s, pe⟩ := w
  cases pe with
  | true =>
    simp only [create_archive, hres, hnode, if_true]
    exact hstep ⟨d, s, true⟩
  | false =>
    have hmf : flt.mkdirFails = false := by
      rcases hmk with h | h
      · cases h
      · exact h
    simp only [create_archive, hres, hnode, hmf, Bool.false_eq_true, if_false]
    exact hstep ⟨d, s, true⟩

theorem create_archive_ok_dest (fs : SymFS)
    (nodeAt : List String → Option FSNode) (src : List String)
    (flt : Faults) (w : World) (sp : List String) (ch : Children) (w' : World)
    (hres : pyResolve fs src = some sp)
    (hnode : nodeAt sp = some (FSNode.dir ch))
    (h : create_archive fs nodeAt src flt w = (AOutcome.ok, w')) :
    w'.dest = some (archiveEntries sp (FSNode.dir ch)) := by
  unfold create_archive at h
  rw [hres] at h
  simp only at h
  rw [hnode] at h
  simp only at h
  split at h
  · have h2 := tryPhase_ok_dest _ _ _ _ h
    exact h2
  · split at h
    · cases h
    · have h2 := tryPhase_ok_dest _ _ _ _ h
      exact h2

/-- C4: for any existing source directory (empty trees included), a
successful `create_archive` publishes at the destination the archive of
the walked tree, whose entries — rooted at the source's base name —
correspond exactly (with matching contents) to the regular non-symlink
files reachable through directories in the source tree; and the call
succeeds only after the integrity scan passed (the integrity fault flags
are clear on the success path). -/
theorem create_archive_roundtrip (fs : SymFS)
    (nodeAt : List String → Option FSNode) (src : List String)
    (flt : Faults) (w : World) (q : List String) (b : String) (ch : Children)
    (hres : pyResolve fs src = some (q ++ [b]))
    (hnode : nodeAt (q ++ [b]) = some (FSNode.dir ch))
    (h1 : flt.tempFails = false) (h2 : flt.writeFails = false)
    (h3 : flt.badZip = false) (h4 : flt.corruptEntry = false)
    (h5 : flt.replaceFails = false)
    (hmk : w.parentExists = true ∨ flt.mkdirFails = false) :
    ∃ w', create_archive fs nodeAt src flt w = (AOutcome.ok, w') ∧
      w'.dest = some (archiveEntries (q ++ [b]) (FSNode.dir ch)) ∧
      ∀ p c, ((b :: p, c) ∈ archiveEntries (q ++ [b]) (FSNode.dir ch) ↔
        NReach (FSNode.dir ch) p c) := by
  refine ⟨_, create_archive_success fs nodeAt src flt w (q ++ [b]) ch hres hnode
    h1 h2 h3 h4 h5 hmk, rfl, ?_⟩
  intro p c
  rw [archiveEntries_concat, mem_prefixEntries]
  exact mem_collectNode (FSNode.dir ch) p c

/-- Witness for C4 at a one-file source `/skills/my-skill/SKILL.md`. -/
theorem create_archive_roundtrip_witness :
    ∃ w', create_archive [(["skills"], SymEntry.dir), (["skills", "my-skill"], SymEntry.dir)]
        (fun p => if p = ["skills", "my-skill"] then
          some (FSNode.dir (Children.cons "SKILL.md" (FSNode.file [104, 105]) Children.nil))
        else none)
        ["skills", "my-skill"] ⟨false, false, false, false, false, false⟩ ⟨none, 0, true⟩ =
          (AOutcome.ok, w') ∧
      w'.dest = some (archiveEntries (["skills"] ++ ["my-skill"])
        (FSNode.dir (Children.cons "SKILL.md" (FSNode.file [104, 105]) Children.nil))) ∧
      ∀ p c, ((("my-skill" :: p, c) ∈ archiveEntries (["skills"] ++ ["my-skill"])
          (FSNode.dir (Children.cons "SKILL.md" (FSNode.file [104, 105]) Children.nil))) ↔
        NReach (FSNode.dir (Children.cons "SKILL.md" (FSNode.file [104, 105]) Children.nil)) p c) := by
  exact create_archive_roundtrip
    [(["skills"], SymEntry.dir), (["skills", "my-skill"], SymEntry.dir)]
    (fun p => if p = ["skills", "my-skill"] then
      some (FSNode.dir (Children.cons "SKILL.md" (FSNode.file [104, 105]) Children.nil))
    else none)
    ["skills", "my-skill"] ⟨false, false, false, false, false, false⟩ ⟨none, 0, true⟩
    ["skills"] "my-skill" (Children.cons "SKILL.md" (FSNode.file [104, 105]) Children.nil)
    (by decide) (by decide) rfl rfl rfl rfl rfl (Or.inl rfl)

/-- C5: symbolic links contribute nothing to the walk — a symlink node
yields no entries and removing a symlink child changes nothing — and a
source holding one regular file plus one symlink archives to exactly one
entry, the regular file's. -/
theorem create_archive_symlink_exclusion :
    (∀ t : List String, collectNode (FSNode.symlink t) = []) ∧
    (∀ (m : String) (t : List String) (rest : Children),
      collectChildren (Children.cons m (FSNode.symlink t) rest) = collectChildren rest) ∧
    (∀ (fs : SymFS) (nodeAt : List String → Option FSNode) (src : List String)
      (flt : Faults) (w : World) (q : List String) (b fn sn : String)
      (c : List Nat) (t : List String),
      pyResolve fs src = some (q ++ [b]) →
      nodeAt (q ++ [b]) = some (FSNode.dir (Children.cons fn (FSNode.file c)
        (Children.cons sn (FSNode.symlink t) Children.nil))) →
      flt.tempFails = false → flt.writeFails = false → flt.badZip = false →
      flt.corruptEntry = false → flt.replaceFails = false →
      (w.parentExists = true ∨ flt.mkdirFails = false) →
      ∃ w', create_archive fs nodeAt src flt w = (AOutcome.ok, w') ∧
        w'.dest = some [([b, fn], c)]) := by
  refine ⟨fun _ => rfl, fun _ _ _ => rfl, ?_⟩
  intro fs nodeAt src flt w q b fn sn c t hres hnode h1 h2 h3 h4 h5 hmk
  refine ⟨_, create_archive_success fs nodeAt src flt w (q ++ [b]) _ hres hnode
    h1 h2 h3 h4 h5 hmk, ?_⟩
  show some (archiveEntries (q ++ [b]) (FSNode.dir (Children.cons fn (FSNode.file c)
    (Children.cons sn (FSNode.symlink t) Children.nil)))) = some [([b, fn], c)]
  rw [archiveEntries_concat]
  rfl

/-- Witness for C5. -/
theorem create_archive_symlink_exclusion_witness :
    ∃ w', create_archive [(["d"], SymEntry.dir)]
        (fun p => if p = ["d"] then
          some (FSNode.dir (Children.cons "f" (FSNode.file [1, 2])
            (Children.cons "s" (FSNode.symlink ["x"]) Children.nil)))
        else none)
        ["d"] ⟨false, false, false, false, false, false⟩ ⟨none, 0, true⟩ =
          (AOutcome.ok, w') ∧
      w'.dest = some [(["d", "f"], [1, 2])] := by
  exact create_archive_symlink_exclusion.2.2 [(["d"], SymEntry.dir)]
    (fun p => if p = ["d"] then
      some (FSNode.dir (Children.cons "f" (FSNode.file [1, 2])
        (Children.cons "s" (FSNode.symlink ["x"]) Children.nil)))
    else none)
    ["d"] ⟨false, false, false, false, false, false⟩ ⟨none, 0, true⟩
    [] "d" "f" "s" [1, 2] ["x"]
    (by decide) (by decide) rfl rfl rfl rfl rfl (Or.inl rfl)

/-- C6: every entry of a successfully created archive for a source `X/Y` is
named `Y/<in-tree path>`: its name starts with the source directory's
base name, is never a single bare component, and its tail is the file's
path through directories inside the source tree (so components of `X`
never appear). -/
theorem create_archive_entry_rooting (fs : SymFS)
    (nodeAt : List String → Option FSNode) (src : List String)
    (flt : Faults) (w : World) (q : List String) (b : String) (ch : Children)
    (w' : World) (es : List (List String × List Nat))
    (p : List String) (c : List Nat)
    (hres : pyResolve fs src = some (q ++ [b]))
    (hnode : nodeAt (q ++ [b]) = some (FSNode.dir ch))
    (hok : create_archive fs nodeAt src flt w = (AOutcome.ok, w'))
    (hdest : w'.dest = some es)
    (hmem : (p, c) ∈ es) :
    ∃ rest, p = b :: rest ∧ rest ≠ [] ∧ NReach (FSNode.dir ch) rest c := by
  have hd := create_archive_ok_dest fs nodeAt src flt w (q ++ [b]) ch w' hres hnode hok
  rw [hdest] at hd
  obtain rfl : es = archiveEntries (q ++ [b]) (FSNode.dir ch) :=
    Option.some.inj hd
  rw [archiveEntries_concat] at hmem
  obtain ⟨rest, rfl, hin⟩ := mem_prefixEntries_shape b _ p c hmem
  have hr := (mem_collectNode (FSNode.dir ch) rest c).mp hin
  exact ⟨rest, rfl, NReach_dir_ne_nil ch rest c hr, hr⟩

/-- Witness for C6 at a concrete archived file `d/f`. -/
theorem create_archive_entry_rooting_witness :
    ∃ rest, (["d", "f"] : List String) = "d" :: rest ∧ rest ≠ [] ∧
      NReach (FSNode.dir (Children.cons "f" (FSNode.file [9]) Children.nil)) rest [9] := by
  exact create_archive_entry_rooting [(["d"], SymEntry.dir)]
    (fun p => if p = ["d"] then
      some (FSNode.dir (Children.cons "f" (FSNode.file [9]) Children.nil))
    else none)
    ["d"] ⟨false, false, false, false, false, false⟩ ⟨none, 0, true⟩
    [] "d" (Children.cons "f" (FSNode.file [9]) Children.nil)
    ⟨some [(["d", "f"], [9])], 0, true⟩ [(["d", "f"], [9])] ["d", "f"] [9]
    (by decide) (by decide) (by decide) rfl (by decide)

/-- Witness for C8: a source path that resolves cleanly but has no
filesystem entry yields the creation error and an untouched world. -/
theorem create_archive_missing_source_witness :
    create_archive [] (fun _ => none) ["missing"]
        ⟨false, false, false, false, false, false⟩ ⟨none, 0, false⟩ =
      (AOutcome.err AErr.creation, ⟨none, 0, false⟩) := by
  exact create_archive_missing_source [] (fun _ => none) ["missing"]
    ⟨false, false, false, false, false, false⟩ ⟨none, 0, false⟩ ["missing"]
    (by decide) (Or.inl rfl)

theorem tryPhase_err_kinds (flt : Faults) (entries : List (List String × List Nat))
    (w1 : World) (e : AErr) (w' : World)
    (h : tryPhase flt entries w1 = (AOutcome.err e, w')) :
    e = AErr.creation ∨ e = AErr.integrity := by
  unfold tryPhase at h
  split at h
  · cases h
    exact Or.inl rfl
  · split at h
    · cases h
      exact Or.inl rfl
    · split at h
      · cases h
        exact Or.inr rfl
      · split at h
        · cases h
          exact Or.inr rfl
        · split at h
          · cases h
            exact Or.inl rfl
          · cases h

/-- C7 counterexample: with the destination's parent missing and its
creation failing, `create_archive` lets the filesystem layer's own error
(`DirectoryCreateError` / `PermissionDeniedError`) escape — the call to
`create_directory` happens before the `try` block, so the error is not
wrapped as either packaging kind. -/
theorem create_archive_mkdir_error_unwrapped :
    create_archive [(["s"], SymEntry.dir)]
        (fun p => if p = ["s"] then some (FSNode.dir Children.nil) else none)
        ["s"] ⟨true, false, false, false, false, false⟩ ⟨none, 0, false⟩ =
      (AOutcome.err AErr.dirCreate, ⟨none, 0, false⟩) ∧
    AErr.dirCreate ≠ AErr.creation ∧ AErr.dirCreate ≠ AErr.integrity := by
  exact ⟨by decide, by decide, by decide⟩

/-- C7 (amended): once source resolution has succeeded and the destination's
parent directory either exists or is created without error, every
exception `create_archive` raises is one of the two packaging kinds,
`ArchiveCreationError` or `ArchiveIntegrityError`; errors from creating
the parent directory (or from resolution itself) are the exceptions to
the claim, escaping unwrapped. -/
theorem create_archive_err_kinds (fs : SymFS)
    (nodeAt : List String → Option FSNode) (src : List String)
    (flt : Faults) (w : World) (e : AErr) (w' : World)
    (hres : ∃ sp, pyResolve fs src = some sp)
    (hmk : w.parentExists = true ∨ flt.mkdirFails = false)
    (h : create_archive fs nodeAt src flt w = (AOutcome.err e, w')) :
    e = AErr.creation ∨ e = AErr.integrity := by
  obtain ⟨sp, hres⟩ := hres
  unfold create_archive at h
  rw [hres] at h
  simp only at h
  split at h
  · cases h
    exact Or.inl rfl
  · cases h
    exact Or.inl rfl
  · cases h
    exact Or.inl rfl
  · split at h
    · have h2 := tryPhase_err_kinds _ _ _ _ _ h
      exact h2
    · split at h
      · rename_i hpe hmf
        rcases hmk with hh | hh
        · exact absurd hh hpe
        · rw [hh] at hmf
          cases hmf
      · have h2 := tryPhase_err_kinds _ _ _ _ _ h
        exact h2

/-- Witness for the amended C7: a failing archive write yields the creation
kind. -/
theorem create_archive_err_kinds_witness :
    AErr.creation = AErr.creation ∨ AErr.creation = AErr.integrity := by
  exact create_archive_err_kinds [(["s"], SymEntry.dir)]
    (fun p => if p = ["s"] then some (FSNode.dir Children.nil) else none)
    ["s"] ⟨false, false, true, false, false, false⟩ ⟨none, 0, true⟩
    AErr.creation ⟨none, 0, true⟩ ⟨["s"], by decide⟩ (Or.inl rfl) (by decide)

theorem resolveComps_nil (fs : SymFS) (f : Nat) (cur : List String) :
    resolveComps fs f cur [] = some cur := by
  cases f <;> rfl

theorem resolveComps_cons (fs : SymFS) (f : Nat) (cur : List String)
    (c : String) (rest : List String) :
    resolveComps fs (f + 1) cur (c :: rest) =
      (if c = "." ∨ c = "" then resolveComps fs f cur rest
       else if c = ".." then resolveComps fs f cur.dropLast rest
       else
         match symTarget (lookupFS fs (cur ++ [c])) with
         | some t => resolveComps fs f [] (t ++ rest)
         | none => resolveComps fs f (cur ++ [c]) rest) := rfl

theorem symTarget_eq_none (o : Option SymEntry) (h : isSymlinkEntry o = false) :
    symTarget o = none := by
  cases o with
  | none => rfl
  | some e => cases e <;> simp_all [isSymlinkEntry, symTarget]

theorem resolveComps_mono (fs : SymFS) :
    ∀ (f f' : Nat) (cur comps r : List String), f ≤ f' →
      resolveComps fs f cur comps = some r → resolveComps fs f' cur comps = some r := by
  intro f
  induction f with
  | zero =>
    intro f' cur comps r _ h
    cases comps with
    | nil =>
      rw [resolveComps_nil] at h
      rw [resolveComps_nil]
      exact h
    | cons c rest =>
      cases h
  | succ k ih =>
    intro f' cur comps r hle h
    cases comps with
    | nil =>
      rw [resolveComps_nil] at h
      rw [resolveComps_nil]
      exact h
    | cons c rest =>
      obtain ⟨k', rfl⟩ : ∃ k', f' = k' + 1 := ⟨f' - 1, by omega⟩
      have hk : k ≤ k' := by omega
      rw [resolveComps_cons] at h
      rw [resolveComps_cons]
      by_cases h1 : c = "." ∨ c = ""
      · rw [if_pos h1] at h
        rw [if_pos h1]
        exact ih k' _ _ _ hk h
      · rw [if_neg h1] at h
        rw [if_neg h1]
        by_cases h2 : c = ".."
        · rw [if_pos h2] at h
          rw [if_pos h2]
          exact ih k' _ _ _ hk h
        · rw [if_neg h2] at h
          rw [if_neg h2]
          cases hlk : symTarget (lookupFS fs (cur ++ [c])) with
          | none =>
            simp only [hlk] at h ⊢
            exact ih k' _ _ _ hk h
          | some t =>
            simp only [hlk] at h ⊢
            exact ih k' _ _ _ hk h

theorem resolveComps_plain_walk (fs : SymFS) :
    ∀ (pre acc tail : List String) (fuel : Nat),
      plainPrefixAux fs acc pre = true →
      resolveComps fs (pre.length + fuel) acc (pre ++ tail) =
        resolveComps fs fuel (acc ++ pre) tail
  | [], acc, tail, fuel => by
    intro _
    simp
  | c :: pre, acc, tail, fuel => by
    intro hplain
    simp only [plainPrefixAux, Bool.and_eq_true, Bool.not_eq_true'] at hplain
    obtain ⟨⟨hdot, hsym⟩, hrest⟩ := hplain
    simp only [Bool.or_eq_false_iff, beq_eq_false_iff_ne] at hdot
    obtain ⟨⟨hc1, hc2⟩, hc3⟩ := hdot
    rw [show (c :: pre).length + fuel = (pre.length + fuel) + 1 from by
      simp only [List.length_cons]
      omega]
    rw [show (c :: pre) ++ tail = c :: (pre ++ tail) from rfl]
    rw [resolveComps_cons]
    rw [if_neg (by
      intro hor
      rcases hor with hh | hh
      · exact hc1 hh
      · exact hc2 hh)]
    rw [if_neg hc3]
    simp only [symTarget_eq_none _ hsym]
    rw [resolveComps_plain_walk fs pre (acc ++ [c]) tail fuel hrest]
    rw [show (acc ++ [c]) ++ pre = acc ++ (c :: pre) from by
      simp [List.append_assoc]]

theorem pyResolve_symlink_last (fs : SymFS) (pre : List String) (name : String)
    (t tp : List String) (m : Nat)
    (hplain : plainPrefix fs pre = true)
    (hname : (name == "." || name == "" || name == "..") = false)
    (hlink : lookupFS fs (pre ++ [name]) = some (SymEntry.symlink t))
    (hm : m + pre.length + 1 ≤ resolveFuel)
    (ht : resolveComps fs m [] t = some tp) :
    pyResolve fs (pre ++ [name]) = some tp := by
  unfold pyResolve
  simp only [Bool.or_eq_false_iff, beq_eq_false_iff_ne] at hname
  obtain ⟨⟨hn1, hn2⟩, hn3⟩ := hname
  rw [show resolveFuel = pre.length + ((resolveFuel - pre.length - 1) + 1) from by
    unfold resolveFuel at hm ⊢
    omega]
  rw [resolveComps_plain_walk fs pre [] [name] ((resolveFuel - pre.length - 1) + 1) hplain]
  rw [List.nil_append]
  rw [resolveComps_cons]
  rw [if_neg (by
    intro hor
    rcases hor with hh | hh
    · exact hn1 hh
    · exact hn2 hh)]
  rw [if_neg hn3]
  rw [show symTarget (lookupFS fs (pre ++ [name])) = some t from by
    rw [hlink]
    rfl]
  show resolveComps fs (resolveFuel - pre.length - 1) [] (t ++ []) = some tp
  rw [List.append_nil]
  exact resolveComps_mono fs m (resolveFuel - pre.length - 1) [] t tp
    (by unfold resolveFuel at hm ⊢; omega) ht

/-- C9: when the source argument is itself a symbolic link to an existing
directory (reached through a plain, symlink-free prefix), `create_archive`
does not reject it — the leading `Path.resolve` follows the link before
the walk begins, the target directory is archived, and the entry names
are rooted at the resolved target directory's base name. -/
theorem create_archive_symlinked_source (fs : SymFS)
    (nodeAt : List String → Option FSNode) (flt : Faults) (w : World)
    (pre : List String) (name : String) (t tp q : List String) (b : String)
    (ch : Children) (m : Nat)
    (hplain : plainPrefix fs pre = true)
    (hname : (name == "." || name == "" || name == "..") = false)
    (hlink : lookupFS fs (pre ++ [name]) = some (SymEntry.symlink t))
    (hm : m + pre.length + 1 ≤ resolveFuel)
    (ht : resolveComps fs m [] t = some tp)
    (hsp : tp = q ++ [b])
    (hnode : nodeAt tp = some (FSNode.dir ch))
    (h1 : flt.tempFails = false) (h2 : flt.writeFails = false)
    (h3 : flt.badZip = false) (h4 : flt.corruptEntry = false)
    (h5 : flt.replaceFails = false)
    (hmk : w.parentExists = true ∨ flt.mkdirFails = false) :
    create_archive fs nodeAt (pre ++ [name]) flt w =
      (AOutcome.ok,
        { w with parentExists := true,
                 dest := some (prefixEntries b (collectNode (FSNode.dir ch))) }) := by
  have hres := pyResolve_symlink_last fs pre name t tp m hplain hname hlink hm ht
  subst hsp
  have h := create_archive_success fs nodeAt (pre ++ [name]) flt w (q ++ [b]) ch
    hres hnode h1 h2 h3 h4 h5 hmk
  rw [h, archiveEntries_concat]

/-- Witness for C9: `/a/link` is a symlink to directory `/a/b` holding one
file; archiving `/a/link` succeeds with entries rooted at `b/`. -/
theorem create_archive_symlinked_source_witness :
    create_archive
        [(["a"], SymEntry.dir), (["a", "link"], SymEntry.symlink ["a", "b"]),
          (["a", "b"], SymEntry.dir)]
        (fun p => if p = ["a", "b"] then
          some (FSNode.dir (Children.cons "f" (FSNode.file [7]) Children.nil))
        else none)
        (["a"] ++ ["link"]) ⟨false, false, false, false, false, false⟩ ⟨none, 0, true⟩ =
      (AOutcome.ok, ⟨some (prefixEntries "b"
        (collectNode (FSNode.dir (Children.cons "f" (FSNode.file [7]) Children.nil)))),
        0, true⟩) := by
  exact create_archive_symlinked_source
    [(["a"], SymEntry.dir), (["a", "link"], SymEntry.symlink ["a", "b"]),
      (["a", "b"], SymEntry.dir)]
    (fun p => if p = ["a", "b"] then
      some (FSNode.dir (Children.cons "f" (FSNode.file [7]) Children.nil))
    else none)
    ⟨false, false, false, false, false, false⟩ ⟨none, 0, true⟩
    ["a"] "link" ["a", "b"] ["a", "b"] ["a"] "b"
    (Children.cons "f" (FSNode.file [7]) Children.nil) 2
    (by decide) (by decide) (by decide) (by decide) (by decide) rfl
    (by decide) rfl rfl rfl rfl rfl (Or.inl rfl)

end Skillex
